import Mathlib

/-!
Verification development for the label-printing repository (`main.go`).

The program collects label text fields in a GUI form and renders them onto a
single 4x6-inch landscape PDF page.  The verifiable core is:

* `drawDescription` (main.go:125-167): a greedy word-wrap loop flowing the
  description into bounded lines, with a character-truncation fallback and a
  vertical cutoff;
* `truncateWord` (main.go:169-175): drop the last character while the word is
  wider than `maxWidth`;
* `drawTitle` (main.go:110-123): per-word case mangling and a centered cell;
* `generateFilename` (main.go:266-269), `generatePDF` (main.go:56-74) and the
  QR temp-file lifecycle in `drawQRCodes` (main.go:212-258).

Strings are modelled as `List Char` (Go byte-level slicing is modelled at
character granularity).  The external PDF library's `GetStringWidth` is an
arbitrary measure function `List Char → ℚ`, parameterised by the current font
where several fonts are in play.  Stateful drawing calls are modelled as an
explicit list of emitted draw events.
-/

/-- Strings of the Go program, modelled as character lists. -/
abbrev Str := List Char

/-- The space character (Go `" "`). -/
def spaceChar : Char := Char.ofNat 32

/-- The underscore character (Go `"_"`). -/
def underscoreChar : Char := Char.ofNat 95

/-- The slash character, the path separator relevant to "written to the
current working directory". -/
def slashChar : Char := Char.ofNat 47

/-- Go `unicode.IsSpace` restricted to the Latin-1 range: space, `\t`, `\n`,
`\v`, `\f`, `\r`, NEL (U+0085) and NBSP (U+00A0).  `strings.Fields` and
`strings.TrimSpace` split/trim on exactly these characters (we do not model
the higher Unicode space code points, which no claim exercises). -/
def goIsSpace (c : Char) : Bool :=
  c = Char.ofNat 32 || c = Char.ofNat 9 || c = Char.ofNat 10 ||
  c = Char.ofNat 11 || c = Char.ofNat 12 || c = Char.ofNat 13 ||
  c = Char.ofNat 133 || c = Char.ofNat 160

/-- Helper for `fields`: walks the string accumulating the current word in
reverse, emitting a word whenever a whitespace character is reached. -/
def fieldsAux : Str → Str → List Str
  | [], acc => if acc = [] then [] else [acc.reverse]
  | c :: rest, acc =>
      if goIsSpace c then
        if acc = [] then fieldsAux rest []
        else acc.reverse :: fieldsAux rest []
      else fieldsAux rest (c :: acc)

/-- Go `strings.Fields`: split around runs of whitespace; no empty words are
produced. -/
def fields (s : Str) : List Str := fieldsAux s []

/-- Go `strings.TrimSpace`: remove leading and trailing whitespace. -/
def trimSpace (s : Str) : Str :=
  ((s.dropWhile goIsSpace).reverse.dropWhile goIsSpace).reverse

/-- Go `strings.Join(words, " ")`. -/
def joinSpace : List Str → Str
  | [] => []
  | [w] => w
  | w :: ws => w ++ spaceChar :: joinSpace ws

/-- The loop body of Go `truncateWord` (main.go:171-173):
`for len(line) > 0 && pdf.GetStringWidth(line) > maxWidth { line = line[:len(line)-1] }`,
run with explicit fuel.  Each iteration removes one character, so
`line.length` iterations always reach the loop's fixed point. -/
def truncLoop (m : Str → ℚ) (maxWidth : ℚ) : Nat → Str → Str
  | 0, line => line
  | fuel + 1, line =>
      if line ≠ [] ∧ maxWidth < m line then truncLoop m maxWidth fuel line.dropLast
      else line

/-- Go `truncateWord` (main.go:169-175): repeatedly drop the last character of
`word` while it is non-empty and measures wider than `maxWidth`. -/
def truncateWord (m : Str → ℚ) (word : Str) (maxWidth : ℚ) : Str :=
  truncLoop m maxWidth word.length word

/-- The candidate line built at the top of each iteration of the word loop in
`drawDescription` (main.go:136-141): `line + " " + word`, or just `word` when
the buffer is empty. -/
def mkTest (line word : Str) : Str :=
  if line = [] then word else line ++ spaceChar :: word

/-- The word loop of `drawDescription` (main.go:135-166), fused with the final
post-loop emission (main.go:163-166), as a function of the remaining `words`,
the current `line` buffer and the current `yPos`.  Returns the emitted
`(line, y)` pairs in order.  The `maxY < ...` tests are the loop-bottom break
check (main.go:157-159); after a break the post-loop emission check
(`line != "" && yPos <= maxY`) is applied to the state at the break, exactly
as in the source. -/
def wrapFrom (m : Str → ℚ) (maxWidth lineHeight maxY : ℚ) :
    List Str → Str → ℚ → List (Str × ℚ)
  | [], line, yPos =>
      if line ≠ [] ∧ yPos ≤ maxY then [(line, yPos)] else []
  | word :: words, line, yPos =>
      if maxWidth < m (mkTest line word) then
        if line ≠ [] then
          if maxY < yPos + lineHeight then
            (line, yPos) ::
              (if word ≠ [] ∧ yPos + lineHeight ≤ maxY then [(word, yPos + lineHeight)] else [])
          else (line, yPos) :: wrapFrom m maxWidth lineHeight maxY words word (yPos + lineHeight)
        else
          if maxY < yPos then
            (if truncateWord m word maxWidth ≠ [] ∧ yPos ≤ maxY then
              [(truncateWord m word maxWidth, yPos)] else [])
          else wrapFrom m maxWidth lineHeight maxY words (truncateWord m word maxWidth) yPos
      else
        if maxY < yPos then
          (if mkTest line word ≠ [] ∧ yPos ≤ maxY then [(mkTest line word, yPos)] else [])
        else wrapFrom m maxWidth lineHeight maxY words (mkTest line word) yPos

/-- The word-wrap routine of `drawDescription` (main.go:129-166): split the
description into words, then run the greedy fill loop from an empty buffer at
`startY`. -/
def wrap (m : Str → ℚ) (maxWidth startY lineHeight maxY : ℚ) (text : Str) :
    List (Str × ℚ) :=
  wrapFrom m maxWidth lineHeight maxY (fields text) [] startY

/-- A character-count measure, the monospaced width model suggested by the
spec for concrete tests (width proportional to character count). -/
def lenM (s : Str) : ℚ := s.length

/-! ### Properties of the truncation loop -/

/-- The truncation loop only ever removes trailing characters: its result is a
prefix of its input. -/
theorem truncLoop_pre (m : Str → ℚ) (mw : ℚ) (fuel : Nat) :
    ∀ line : Str, truncLoop m mw fuel line <+: line := by
  induction fuel with
  | zero => intro line; exact List.prefix_rfl
  | succ fuel ih =>
      intro line
      simp only [truncLoop]
      split_ifs with h
      · have hd := List.dropLast_prefix line
        exact (ih line.dropLast).trans hd
      · exact List.prefix_rfl

/-- With enough fuel (the input length suffices), the loop ends either at the
empty string or at a string measuring at most `maxWidth`. -/
theorem truncLoop_ok (m : Str → ℚ) (mw : ℚ) (fuel : Nat) :
    ∀ line : Str, line.length ≤ fuel →
      truncLoop m mw fuel line = [] ∨ m (truncLoop m mw fuel line) ≤ mw := by
  induction fuel with
  | zero =>
      intro line h
      have hnil : line = [] := List.eq_nil_of_length_eq_zero (Nat.le_zero.mp h)
      subst hnil
      exact Or.inl rfl
  | succ fuel ih =>
      intro line h
      simp only [truncLoop]
      split_ifs with hcond
      · apply ih
        have hne : line ≠ [] := hcond.1
        have hpos : 0 < line.length := List.length_pos.mpr hne
        have hdl : line.dropLast.length = line.length - 1 := List.length_dropLast line
        omega
      · push_neg at hcond
        by_cases hl : line = []
        · exact Or.inl hl
        · exact Or.inr (hcond hl)

/-- Maximality of the truncation loop: every strictly longer prefix of the
input than the result measures wider than `maxWidth`. -/
theorem truncLoop_max (m : Str → ℚ) (mw : ℚ) (fuel : Nat) :
    ∀ line : Str, line.length ≤ fuel → ∀ n : Nat,
      (truncLoop m mw fuel line).length < n → n ≤ line.length →
      mw < m (line.take n) := by
  induction fuel with
  | zero =>
      intro line h n h1 h2
      exfalso
      have hnil : line = [] := List.eq_nil_of_length_eq_zero (Nat.le_zero.mp h)
      subst hnil
      simp at h2
      omega
  | succ fuel ih =>
      intro line h n h1 h2
      simp only [truncLoop] at h1
      split_ifs at h1 with hcond
      · have hne : line ≠ [] := hcond.1
        have hpos : 0 < line.length := List.length_pos.mpr hne
        have hdl : line.dropLast.length = line.length - 1 := List.length_dropLast line
        rcases eq_or_lt_of_le h2 with hn | hn
        · rw [hn, List.take_length]
          exact hcond.2
        · have htk : line.take n = line.dropLast.take n := by
            rw [List.dropLast_eq_take, List.take_take, Nat.min_eq_left (by omega)]
          rw [htk]
          exact ih line.dropLast (by omega) n h1 (by omega)
      · exfalso; omega

/-- A word already measuring at most `maxWidth` is left unchanged by the
truncation loop. -/
theorem truncLoop_noop (m : Str → ℚ) (mw : ℚ) (fuel : Nat) (line : Str)
    (h : m line ≤ mw) : truncLoop m mw fuel line = line := by
  cases fuel with
  | zero => rfl
  | succ fuel =>
      simp only [truncLoop]
      exact if_neg (fun hc => absurd hc.2 (not_lt.mpr h))

/-- The truncation loop fixes the empty string. -/
theorem truncLoop_nil (m : Str → ℚ) (mw : ℚ) (fuel : Nat) :
    truncLoop m mw fuel [] = [] := by
  cases fuel with
  | zero => rfl
  | succ fuel => simp [truncLoop]

/-- The function `truncateWord` returns a prefix of its input. -/
theorem truncateWord_pre (m : Str → ℚ) (word : Str) (mw : ℚ) :
    truncateWord m word mw <+: word :=
  truncLoop_pre m mw word.length word

/-- The function `truncateWord` returns either the empty string or a string measuring at
most `maxWidth`. -/
theorem truncateWord_ok (m : Str → ℚ) (word : Str) (mw : ℚ) :
    truncateWord m word mw = [] ∨ m (truncateWord m word mw) ≤ mw :=
  truncLoop_ok m mw word.length word le_rfl

/-- Every prefix of `word` strictly longer than `truncateWord`'s result
measures wider than `maxWidth`. -/
theorem truncateWord_max (m : Str → ℚ) (word : Str) (mw : ℚ) :
    ∀ n : Nat, (truncateWord m word mw).length < n → n ≤ word.length →
      mw < m (word.take n) :=
  truncLoop_max m mw word.length word le_rfl

/-- Truncating an already-narrow word is a no-op. -/
theorem truncateWord_noop (m : Str → ℚ) (word : Str) (mw : ℚ)
    (h : m word ≤ mw) : truncateWord m word mw = word :=
  truncLoop_noop m mw word.length word h

/-- Truncation is idempotent, unconditionally. -/
theorem truncateWord_idem (m : Str → ℚ) (word : Str) (mw : ℚ) :
    truncateWord m (truncateWord m word mw) mw = truncateWord m word mw := by
  rcases truncateWord_ok m word mw with h | h
  · rw [h]
    exact truncLoop_nil m mw 0
  · exact truncateWord_noop m (truncateWord m word mw) mw h

/-! ### Properties of the word-wrap loop -/

/-- No emitted line is empty: every emission site in `drawDescription` is
guarded by a non-emptiness test on the buffer. -/
theorem wrapFrom_ne_nil (m : Str → ℚ) (maxWidth lineHeight maxY : ℚ) :
    ∀ (words : List Str) (line : Str) (yPos : ℚ),
      ∀ p ∈ wrapFrom m maxWidth lineHeight maxY words line yPos, p.1 ≠ [] := by
  intro words
  induction words with
  | nil =>
      intro line yPos p hp
      simp only [wrapFrom] at hp
      split_ifs at hp with h
      · rcases List.mem_singleton.mp hp with rfl
        exact h.1
      · exact absurd hp (List.not_mem_nil p)
  | cons word words ih =>
      intro line yPos p hp
      simp only [wrapFrom] at hp
      split_ifs at hp with h1 h2 h3 h4 h3 h4 h5 h6
      · rcases List.mem_cons.mp hp with rfl | hp2
        · exact h2
        · rcases List.mem_singleton.mp hp2 with rfl
          exact h4.1
      · rcases List.mem_cons.mp hp with rfl | hp2
        · exact h2
        · exact absurd hp2 (List.not_mem_nil p)
      · rcases List.mem_cons.mp hp with rfl | hp2
        · exact h2
        · exact ih word (yPos + lineHeight) p hp2
      · rcases List.mem_singleton.mp hp with rfl
        exact h4.1
      · exact absurd hp (List.not_mem_nil p)
      · exact ih (truncateWord m word maxWidth) yPos p hp
      · rcases List.mem_singleton.mp hp with rfl
        exact h6.1
      · exact absurd hp (List.not_mem_nil p)
      · exact ih (mkTest line word) yPos p hp

/-- Every line emitted from a state with `yPos ≤ maxY` is emitted at a
vertical position `≤ maxY`: in-loop emissions reuse the current `yPos`
(which the previous iteration's break check bounded), and the post-loop
emission is explicitly guarded by `yPos ≤ maxY`. -/
theorem wrapFrom_y_le (m : Str → ℚ) (maxWidth lineHeight maxY : ℚ) :
    ∀ (words : List Str) (line : Str) (yPos : ℚ), yPos ≤ maxY →
      ∀ p ∈ wrapFrom m maxWidth lineHeight maxY words line yPos, p.2 ≤ maxY := by
  intro words
  induction words with
  | nil =>
      intro line yPos hy p hp
      simp only [wrapFrom] at hp
      split_ifs at hp with h
      · rcases List.mem_singleton.mp hp with rfl
        exact h.2
      · exact absurd hp (List.not_mem_nil p)
  | cons word words ih =>
      intro line yPos hy p hp
      simp only [wrapFrom] at hp
      split_ifs at hp with h1 h2 h3 h4 h3 h4 h5 h6
      · rcases List.mem_cons.mp hp with rfl | hp2
        · exact hy
        · rcases List.mem_singleton.mp hp2 with rfl
          exact h4.2
      · rcases List.mem_cons.mp hp with rfl | hp2
        · exact hy
        · exact absurd hp2 (List.not_mem_nil p)
      · rcases List.mem_cons.mp hp with rfl | hp2
        · exact hy
        · exact ih word (yPos + lineHeight) (not_lt.mp h3) p hp2
      · rcases List.mem_singleton.mp hp with rfl
        exact h4.2
      · exact absurd hp (List.not_mem_nil p)
      · exact ih (truncateWord m word maxWidth) yPos hy p hp
      · rcases List.mem_singleton.mp hp with rfl
        exact h6.2
      · exact absurd hp (List.not_mem_nil p)
      · exact ih (mkTest line word) yPos hy p hp

/-- Starting the loop with an empty buffer below the cutoff produces nothing:
the first iteration cannot emit (the buffer is empty), the break fires at the
bottom of that iteration, and the post-loop emission check fails. -/
theorem wrapFrom_nil_of_past (m : Str → ℚ) (maxWidth lineHeight maxY : ℚ)
    (words : List Str) (yPos : ℚ) (hy : maxY < yPos) :
    wrapFrom m maxWidth lineHeight maxY words [] yPos = [] := by
  cases words with
  | nil =>
      simp only [wrapFrom]
      rw [if_neg]
      rintro ⟨-, h2⟩
      exact absurd h2 (not_le.mpr hy)
  | cons word words =>
      have hg : ∀ l : Str, (if l ≠ [] ∧ yPos ≤ maxY then [(l, yPos)] else []) = [] := fun l => by
        rw [if_neg]
        rintro ⟨-, h⟩
        exact absurd h (not_le.mpr hy)
      by_cases h1 : maxWidth < m (mkTest [] word)
      · simp only [wrapFrom]
        rw [if_pos h1, if_neg (show ¬ (([] : Str) ≠ []) by simp), if_pos hy, hg]
      · simp only [wrapFrom]
        rw [if_neg h1, if_pos hy, hg]

/-- Width invariant for the wrap loop.  If every remaining word measures at
most `maxWidth` and the current buffer is empty or measures at most
`maxWidth`, then every emitted line measures at most `maxWidth`.  (The
restriction on the words is necessary: after emitting a full line the loop
installs the next word as the new buffer without any width check, so an
oversized word following a non-empty buffer is emitted untruncated — see the
counterexample for claim C1.) -/
theorem wrapFrom_width_le (m : Str → ℚ) (maxWidth lineHeight maxY : ℚ) :
    ∀ (words : List Str) (line : Str) (yPos : ℚ),
      (∀ w ∈ words, m w ≤ maxWidth) → (line = [] ∨ m line ≤ maxWidth) →
      ∀ p ∈ wrapFrom m maxWidth lineHeight maxY words line yPos,
        m p.1 ≤ maxWidth := by
  intro words
  induction words with
  | nil =>
      intro line yPos _ hline p hp
      simp only [wrapFrom] at hp
      split_ifs at hp with h
      · rcases List.mem_singleton.mp hp with rfl
        exact hline.resolve_left h.1
      · exact absurd hp (List.not_mem_nil p)
  | cons word words ih =>
      intro line yPos hw hline p hp
      have hword : m word ≤ maxWidth := hw word (List.mem_cons_self word words)
      have hrest : ∀ w ∈ words, m w ≤ maxWidth := fun w h => hw w (List.mem_cons_of_mem word h)
      simp only [wrapFrom] at hp
      split_ifs at hp with h1 h2 h3 h4 h3 h4 h5 h6
      · rcases List.mem_cons.mp hp with rfl | hp2
        · exact hline.resolve_left h2
        · rcases List.mem_singleton.mp hp2 with rfl
          exact hword
      · rcases List.mem_cons.mp hp with rfl | hp2
        · exact hline.resolve_left h2
        · exact absurd hp2 (List.not_mem_nil p)
      · rcases List.mem_cons.mp hp with rfl | hp2
        · exact hline.resolve_left h2
        · exact ih word (yPos + lineHeight) hrest (Or.inr hword) p hp2
      · rcases List.mem_singleton.mp hp with rfl
        exact (truncateWord_ok m word maxWidth).resolve_left h4.1
      · exact absurd hp (List.not_mem_nil p)
      · exact ih (truncateWord m word maxWidth) yPos hrest (truncateWord_ok m word maxWidth) p hp
      · rcases List.mem_singleton.mp hp with rfl
        exact not_lt.mp h1
      · exact absurd hp (List.not_mem_nil p)
      · exact ih (mkTest line word) yPos hrest (Or.inr (not_lt.mp h1)) p hp

/-- Line-count bound for the wrap loop, from a state with `yPos ≤ maxY` and a
positive line height: the `i`-th emission happens at `yPos + i·lineHeight`,
every emission happens at a position `≤ maxY`, so at most
`⌈(maxY - yPos)/lineHeight⌉ + 1` lines are emitted. -/
theorem wrapFrom_length_le (m : Str → ℚ) (maxWidth lineHeight maxY : ℚ)
    (hlh : 0 < lineHeight) :
    ∀ (words : List Str) (line : Str) (yPos : ℚ), yPos ≤ maxY →
      ((wrapFrom m maxWidth lineHeight maxY words line yPos).length : ℤ) ≤
        ⌈(maxY - yPos) / lineHeight⌉ + 1 := by
  intro words
  have hceil : ∀ yPos : ℚ, yPos ≤ maxY → (0 : ℤ) ≤ ⌈(maxY - yPos) / lineHeight⌉ := by
    intro yPos hy
    exact Int.ceil_nonneg (div_nonneg (sub_nonneg.mpr hy) (le_of_lt hlh))
  induction words with
  | nil =>
      intro line yPos hy
      simp only [wrapFrom]
      split_ifs <;> simp <;> [skip; exact le_trans (hceil yPos hy) (le_add_of_nonneg_right one_pos.le)]
      · have := hceil yPos hy
        omega
  | cons word words ih =>
      intro line yPos hy
      simp only [wrapFrom]
      split_ifs with h1 h2 h3 h4 h3 h4 h5 h6
      · exfalso
        exact absurd h4.2 (not_le.mpr h3)
      · simp only [List.length_cons, List.length_nil]
        have := hceil yPos hy
        omega
      · simp only [List.length_cons]
        have hy2 : yPos + lineHeight ≤ maxY := not_lt.mp h3
        have hrec := ih word (yPos + lineHeight) hy2
        have hsub : (maxY - (yPos + lineHeight)) / lineHeight =
            (maxY - yPos) / lineHeight - 1 := by
          rw [show maxY - (yPos + lineHeight) = (maxY - yPos) - lineHeight by ring, sub_div,
            div_self (ne_of_gt hlh)]
        rw [hsub, Int.ceil_sub_one] at hrec
        omega
      · simp only [List.length_singleton]
        have := hceil yPos hy
        omega
      · simp only [List.length_nil]
        have := hceil yPos hy
        omega
      · exact ih (truncateWord m word maxWidth) yPos hy
      · simp only [List.length_singleton]
        have := hceil yPos hy
        omega
      · simp only [List.length_nil]
        have := hceil yPos hy
        omega
      · exact ih (mkTest line word) yPos hy

/-- Modelled from the spec: the wrap loop as described in spec §4.1, with the
`y > maxY` cutoff check performed at loop-top, before consuming each word
(step 5), followed by the final-buffer emission of step 6.  This is the
variant claim C2 asserts; the source performs the check at loop-bottom. -/
def specWrapTopFrom (m : Str → ℚ) (maxWidth lineHeight maxY : ℚ) :
    List Str → Str → ℚ → List (Str × ℚ)
  | [], line, yPos =>
      if line ≠ [] ∧ yPos ≤ maxY then [(line, yPos)] else []
  | word :: words, line, yPos =>
      if maxY < yPos then
        if line ≠ [] ∧ yPos ≤ maxY then [(line, yPos)] else []
      else
        if maxWidth < m (mkTest line word) then
          if line ≠ [] then
            (line, yPos) :: specWrapTopFrom m maxWidth lineHeight maxY words word (yPos + lineHeight)
          else
            specWrapTopFrom m maxWidth lineHeight maxY words (truncateWord m word maxWidth) yPos
        else specWrapTopFrom m maxWidth lineHeight maxY words (mkTest line word) yPos

/-- Modelled from the spec: `wrap` with the loop-top cutoff check. -/
def specWrapTop (m : Str → ℚ) (maxWidth startY lineHeight maxY : ℚ) (text : Str) :
    List (Str × ℚ) :=
  specWrapTopFrom m maxWidth lineHeight maxY (fields text) [] startY

/-- When the cutoff has already been passed, the loop-top variant emits
nothing (its final emission is guarded by `yPos ≤ maxY`). -/
theorem specWrapTopFrom_nil_of_past (m : Str → ℚ) (maxWidth lineHeight maxY : ℚ)
    (words : List Str) (line : Str) (yPos : ℚ) (hy : maxY < yPos) :
    specWrapTopFrom m maxWidth lineHeight maxY words line yPos = [] := by
  have hg : ¬ (line ≠ [] ∧ yPos ≤ maxY) := by
    rintro ⟨-, h⟩
    exact absurd h (not_le.mpr hy)
  cases words with
  | nil =>
      simp only [specWrapTopFrom]
      exact if_neg hg
  | cons word words =>
      simp only [specWrapTopFrom]
      rw [if_pos hy, if_neg hg]

/-- From any state not yet past the cutoff, the loop-bottom-check loop of the
source emits exactly the same lines as the spec's loop-top-check variant. -/
theorem wrapFrom_eq_specWrapTopFrom (m : Str → ℚ) (maxWidth lineHeight maxY : ℚ) :
    ∀ (words : List Str) (line : Str) (yPos : ℚ), yPos ≤ maxY →
      wrapFrom m maxWidth lineHeight maxY words line yPos =
        specWrapTopFrom m maxWidth lineHeight maxY words line yPos := by
  intro words
  induction words with
  | nil => intro line yPos _; rfl
  | cons word words ih =>
      intro line yPos hy
      have hRHS : specWrapTopFrom m maxWidth lineHeight maxY (word :: words) line yPos =
          (if maxWidth < m (mkTest line word) then
            if line ≠ [] then
              (line, yPos) ::
                specWrapTopFrom m maxWidth lineHeight maxY words word (yPos + lineHeight)
            else specWrapTopFrom m maxWidth lineHeight maxY words (truncateWord m word maxWidth) yPos
          else specWrapTopFrom m maxWidth lineHeight maxY words (mkTest line word) yPos) := by
        simp only [specWrapTopFrom]
        rw [if_neg (not_lt.mpr hy)]
      rw [hRHS]
      simp only [wrapFrom]
      by_cases h1 : maxWidth < m (mkTest line word)
      · rw [if_pos h1, if_pos h1]
        by_cases h2 : line ≠ []
        · rw [if_pos h2, if_pos h2]
          by_cases h3 : maxY < yPos + lineHeight
          · rw [if_pos h3, if_neg (fun hc => absurd hc.2 (not_le.mpr h3)),
              specWrapTopFrom_nil_of_past m maxWidth lineHeight maxY words word _ h3]
          · rw [if_neg h3, ih word (yPos + lineHeight) (not_lt.mp h3)]
        · rw [if_neg h2, if_neg h2, if_neg (not_lt.mpr hy),
            ih (truncateWord m word maxWidth) yPos hy]
      · rw [if_neg h1, if_neg h1, if_neg (not_lt.mpr hy), ih (mkTest line word) yPos hy]

/-- Top-level: the source's wrap (loop-bottom cutoff check) and the spec's
wrap (loop-top cutoff check) emit identical line sequences on every input.
The two differ only in unobservable internal state: when `startY > maxY` the
source still consumes the first word, but with an empty initial buffer that
iteration cannot emit anything. -/
theorem wrap_eq_specWrapTop (m : Str → ℚ) (maxWidth startY lineHeight maxY : ℚ)
    (text : Str) :
    wrap m maxWidth startY lineHeight maxY text =
      specWrapTop m maxWidth startY lineHeight maxY text := by
  rcases le_or_lt startY maxY with hy | hy
  · exact wrapFrom_eq_specWrapTopFrom m maxWidth lineHeight maxY (fields text) [] startY hy
  · rw [wrap, specWrapTop, wrapFrom_nil_of_past m maxWidth lineHeight maxY (fields text) startY hy,
      specWrapTopFrom_nil_of_past m maxWidth lineHeight maxY (fields text) [] startY hy]

/-! ### Title transformation, filename generation, and the layout model -/

/-- The per-word transformation applied by `drawTitle` (main.go:113-117):
`strings.ToUpper(word[:1]) + strings.ToLower(word[1:])` — first character
uppercased, every remaining character lowercased. -/
def titleCaseWord : Str → Str
  | [] => []
  | c :: cs => c.toUpper :: cs.map Char.toLower

/-- The full title transformation of `drawTitle` (main.go:112-118): split into
whitespace-separated words, title-case each word, re-join with single
spaces. -/
def titleTransform (title : Str) : Str :=
  joinSpace ((fields title).map titleCaseWord)

/-- Modelled from the spec (claim C8's reading): only the first letter of each
whitespace-separated word converted to uppercase, the rest of the word left
unchanged. -/
def specTitleUpperFirst (title : Str) : Str :=
  joinSpace ((fields title).map (fun w =>
    match w with
    | [] => []
    | c :: cs => c.toUpper :: cs))

/-- Modelled from the spec as amended: first letter of each word uppercased
and the remainder lowercased (title-casing), stated independently of the
source's formulation via `take`/`drop`. -/
def specTitleTitleCase (title : Str) : Str :=
  joinSpace ((fields title).map (fun w =>
    (w.take 1).map Char.toUpper ++ (w.drop 1).map Char.toLower))

/-- Go `strings.ReplaceAll(s, old, new)` specialised to single-character
pattern and replacement, as used in `generateFilename`. -/
def replaceAllChar (s : Str) (old new : Char) : Str :=
  s.map (fun c => if c = old then new else c)

/-- Go `generateFilename` (main.go:266-269):
`label_` + SKU with spaces replaced by underscores + `.pdf`. -/
def generateFilename (sku : Str) : Str :=
  String.toList "label_" ++ replaceAllChar sku spaceChar underscoreChar ++ String.toList ".pdf"

/-- Modelled from the spec: `label_<SKU-with-spaces-replaced-by-underscores>.pdf`,
with the replacement written as direct recursion over the SKU. -/
def specReplaceSpaces : Str → Str
  | [] => []
  | c :: cs => (if c = spaceChar then underscoreChar else c) :: specReplaceSpaces cs

/-- Modelled from the spec: the expected output filename. -/
def specFilename (sku : Str) : Str :=
  String.toList "label_" ++ specReplaceSpaces sku ++ String.toList ".pdf"

/-- Page geometry constants of the landscape variant (main.go:18-29). -/
def pageWidthInches : ℚ := 4

/-- Page height constant (main.go:20). -/
def pageHeightInches : ℚ := 6

/-- Margin constant (main.go:21). -/
def marginInches : ℚ := 1/8

/-- A font selection: style string and point size (family is always
Courier). `pdf.GetStringWidth` depends on the font set by the preceding
`pdf.SetFont` call, so the abstract measure takes the font as an argument. -/
structure Font where
  style : Str
  size : ℚ
deriving DecidableEq

/-- Horizontal alignment of a drawn text cell (`alignStr` of `CellFormat`). -/
inductive Align
  | L
  | C
  | R
deriving DecidableEq

/-- One `pdf.CellFormat` call: position (from the preceding `pdf.SetXY`),
cell width and height, text, and alignment. -/
structure Cell where
  x : ℚ
  y : ℚ
  w : ℚ
  h : ℚ
  text : Str
  align : Align
deriving DecidableEq

/-- Observable effects of one generation run, in program order. -/
inductive Event
  | addPage
  | cell (c : Cell)
  | qrWrite (url : Str) (path : Str)
  | image (path : Str) (x y w h : ℚ)
  | removeFile (path : Str)
  | rect (x y w h : ℚ)
deriving DecidableEq

/-- File-system events touching the temporary QR image, plus the embed step:
`qrcode.WriteFile`, `pdf.Image`, `os.Remove`. -/
def Event.isQRFileOp : Event → Bool
  | .qrWrite _ _ => true
  | .image _ _ _ _ _ => true
  | .removeFile _ => true
  | _ => false

/-- The user-entered label fields (main.go:31-42). -/
structure LabelData where
  Title : Str
  Description : Str
  ReturnLocation : Str
  SKU : Str
  Barcode : Str
  CheckoutDate : Str
  ReturnDate : Str
  URL1 : Str
  URL2 : Str
  URL3 : Str

/-- Go `drawTitle` (main.go:110-123): transform the title and draw it as one
centered cell of width `contentWidth` at `(margin, margin + 0.1)`. -/
def drawTitle (title : Str) (contentWidth : ℚ) : Event :=
  .cell ⟨marginInches, marginInches + 1/10, contentWidth, 3/10, titleTransform title, .C⟩

/-- Go `drawDescription` (main.go:125-167) as line data: wrap the description
with the routine's constants — `maxWidth = contentWidth - 0.1`,
`startY = margin + 0.625`, line height `0.25`,
`maxY = pageHeight - margin - 1.0`. -/
def drawDescriptionLines (m : Str → ℚ) (contentWidth : ℚ) (description : Str) :
    List (Str × ℚ) :=
  wrap m (contentWidth - 1/10) (marginInches + 5/8) (1/4) (pageHeightInches - marginInches - 1)
    description

/-- Go `drawDescription` as draw events: each wrapped line becomes a
left-aligned cell at `(margin, y)` whose width is the line's measured
width. -/
def drawDescription (m : Str → ℚ) (contentWidth : ℚ) (description : Str) : List Event :=
  (drawDescriptionLines m contentWidth description).map
    (fun p => .cell ⟨marginInches, p.2, m p.1, 1/5, p.1, .L⟩)

/-- Go `generateQRCode` (main.go:177-185): skip silently when the URL is
blank; otherwise attempt `qrcode.WriteFile`, whose success is the external
boolean `qrOk` (`true` models `err == nil`). -/
def generateQRCode (qrOk : Bool) (url filename : Str) : List Event × Bool :=
  if trimSpace url = [] then ([], true)
  else ([.qrWrite url filename], qrOk)

/-- The temporary QR image path (main.go:237). -/
def qrPath : Str := String.toList "qr_1.png"

/-- Go `drawQRCodes` (main.go:212-258): borrowed-date and return-location
cells, then — when URL1 is non-blank — QR generation, and on its success the
label cell, the image embed, and the temp-file removal. -/
def drawQRCodes (m : Font → Str → ℚ) (qrOk : Bool) (data : LabelData) : List Event :=
  [ .cell ⟨marginInches, (pageWidthInches - marginInches - 1/2) - 4/5,
      m ⟨String.toList "B", 14⟩ (String.toList "Borrowed: " ++ data.CheckoutDate), 3/10,
      String.toList "Borrowed: " ++ data.CheckoutDate, .L⟩,
    .cell ⟨marginInches, (pageWidthInches - marginInches - 1/2) - 1/2,
      m ⟨String.toList "B", 14⟩ (String.toList "Return To: " ++ data.ReturnLocation), 3/10,
      String.toList "Return To: " ++ data.ReturnLocation, .L⟩ ] ++
  (if trimSpace data.URL1 ≠ [] then
    (generateQRCode qrOk data.URL1 qrPath).1 ++
    (if (generateQRCode qrOk data.URL1 qrPath).2 then
      [ .cell ⟨(pageHeightInches - marginInches - 1/2) +
          (1/2 - m ⟨String.toList "B", 8⟩ (String.toList "Finalize Restock"))/2,
          (pageWidthInches - marginInches - 1/2) - 3/20,
          m ⟨String.toList "B", 8⟩ (String.toList "Finalize Restock"), 1/10,
          String.toList "Finalize Restock", .C⟩,
        .image qrPath (pageHeightInches - marginInches - 1/2)
          (pageWidthInches - marginInches - 1/2) (1/2) (1/2),
        .removeFile qrPath ]
    else [])
  else [])

/-- Go `drawBottomInfo` (main.go:187-210): barcode (right, above the bottom
row), SKU (centered), return date (right), then the QR block. -/
def drawBottomInfo (m : Font → Str → ℚ) (qrOk : Bool) (data : LabelData)
    (contentWidth : ℚ) : List Event :=
  [ .cell ⟨pageWidthInches - marginInches -
      m ⟨String.toList "B", 9⟩ (String.toList "BC: " ++ data.Barcode),
      (pageWidthInches - marginInches - 3/5) - 7/20,
      m ⟨String.toList "B", 9⟩ (String.toList "BC: " ++ data.Barcode), 3/10,
      String.toList "BC: " ++ data.Barcode, .R⟩,
    .cell ⟨marginInches, pageWidthInches - marginInches - 3/5, contentWidth, 3/10,
      String.toList "SKU: " ++ data.SKU, .C⟩,
    .cell ⟨pageWidthInches - marginInches -
      m ⟨String.toList "B", 14⟩ (String.toList "Return By: " ++ data.ReturnDate),
      pageWidthInches - marginInches - 3/5,
      m ⟨String.toList "B", 14⟩ (String.toList "Return By: " ++ data.ReturnDate), 3/10,
      String.toList "Return By: " ++ data.ReturnDate, .R⟩ ] ++
  drawQRCodes m qrOk data

/-- Go `layoutPDF` (main.go:88-108): add the page, draw title, description,
bottom info, and the border rectangle.  As in the source, the content width
is the page height minus both margins (landscape orientation). -/
def layoutPDF (m : Font → Str → ℚ) (qrOk : Bool) (data : LabelData) : List Event :=
  Event.addPage ::
    drawTitle data.Title (pageHeightInches - 2 * marginInches) ::
    drawDescription (m ⟨[], 10⟩) (pageHeightInches - 2 * marginInches) data.Description ++
    drawBottomInfo m qrOk data (pageHeightInches - 2 * marginInches) ++
    [Event.rect marginInches marginInches (pageHeightInches - 2 * marginInches)
      (pageWidthInches - 2 * marginInches)]

/-- Go `generatePDF` (main.go:56-74): validate the title, then lay out the
page and produce the output filename.  A `.error` result models the early
return: no drawing has happened and no file is written. -/
def generatePDF (m : Font → Str → ℚ) (qrOk : Bool) (data : LabelData) :
    Except Str (List Event × Str) :=
  if trimSpace data.Title = [] then Except.error (String.toList "title is required")
  else Except.ok (layoutPDF m qrOk data, generateFilename data.SKU)

/-! ### Helper lemmas for the claim theorems -/

/-- A string consisting only of whitespace trims to the empty string. -/
theorem trimSpace_eq_nil (s : Str) (h : ∀ c ∈ s, goIsSpace c = true) :
    trimSpace s = [] := by
  unfold trimSpace
  rw [List.dropWhile_eq_nil_iff.mpr h]
  rfl

/-- The per-word title transformation coincides with the amended spec wording
(take-1 uppercased, drop-1 lowercased). -/
theorem titleCaseWord_eq (w : Str) :
    titleCaseWord w = (w.take 1).map Char.toUpper ++ (w.drop 1).map Char.toLower := by
  cases w with
  | nil => rfl
  | cons c cs => simp [titleCaseWord]

/-- The title transformation of the source equals the amended spec
formulation on every input. -/
theorem titleTransform_eq (title : Str) :
    titleTransform title = specTitleTitleCase title := by
  unfold titleTransform specTitleTitleCase
  congr 1
  exact List.map_congr_left (fun w _ => titleCaseWord_eq w)

/-- The character-map replacement of the source equals the recursive
replacement modelled from the spec. -/
theorem replaceAllChar_eq_specReplaceSpaces (s : Str) :
    replaceAllChar s spaceChar underscoreChar = specReplaceSpaces s := by
  induction s with
  | nil => rfl
  | cons c cs ih => simp [replaceAllChar, specReplaceSpaces] at ih ⊢; exact ih

/-- The replacement introduces no slash: a character of the output is either
an underscore or a non-space character of the input. -/
theorem slash_not_mem_replaceAllChar (s : Str) (h : slashChar ∉ s) :
    slashChar ∉ replaceAllChar s spaceChar underscoreChar := by
  intro hmem
  rcases List.mem_map.mp hmem with ⟨c, hc, heq⟩
  by_cases hsp : c = spaceChar
  · rw [if_pos hsp] at heq
    exact absurd heq (by decide)
  · rw [if_neg hsp] at heq
    exact h (heq ▸ hc)

/-- Description cells are never file events. -/
theorem drawDescription_filter_qr (m : Str → ℚ) (cw : ℚ) (d : Str) :
    (drawDescription m cw d).filter Event.isQRFileOp = [] := by
  unfold drawDescription
  rw [List.filter_map]
  have : (Event.isQRFileOp ∘ fun p : Str × ℚ =>
      Event.cell ⟨marginInches, p.2, m p.1, 1/5, p.1, .L⟩) = fun _ => false := by
    funext p
    rfl
  rw [this, List.filter_false, List.map_nil]

/-- Claim C6 (confirmed): in every generation run that embeds a QR code
(non-blank URL and successful QR write — `pdf.Image` itself returns no error,
so "regardless of whether the embed step succeeds" holds trivially), the
QR-file events of the layout are exactly: temp-file write, image embed,
temp-file removal, consecutively in that order; the removal is the
immediately following file operation after the embed, so the only uncleaned
case is a crash between creation and removal.  (When the QR write fails, no
embed happens, which is outside this claim's scope.) -/
theorem C6_qr_lifecycle (m : Font → Str → ℚ) (data : LabelData)
    (hurl : trimSpace data.URL1 ≠ []) :
    (layoutPDF m true data).filter Event.isQRFileOp =
      [Event.qrWrite data.URL1 qrPath,
       Event.image qrPath (pageHeightInches - marginInches - 1/2)
         (pageWidthInches - marginInches - 1/2) (1/2) (1/2),
       Event.removeFile qrPath] := by
  unfold layoutPDF drawBottomInfo drawQRCodes generateQRCode
  rw [if_neg hurl, if_pos hurl]
  simp [List.filter_append, List.filter_cons, drawDescription_filter_qr, drawTitle,
    Event.isQRFileOp]

/-- The candidate line built on an empty buffer is just the word itself. -/
theorem mkTest_nil (word : Str) : mkTest [] word = word := by
  simp [mkTest]

/-! ### Claim theorems -/

/-- A concrete description for the claim C1 counterexample:
`"ab cdefg x"`. -/
def c1desc : Str := ['a', 'b', spaceChar, 'c', 'd', 'e', 'f', 'g', spaceChar, 'x']

/-- Claim C1 (counterexample): with the character-count measure and
`maxWidth = 3` (and the routine's own y-constants), the description
`"ab cdefg x"` makes `drawDescription` emit the line `"cdefg"`, whose
measured width 5 exceeds `maxWidth = 3`: after the emission of `"ab"`, the
loop installs `"cdefg"` as the new buffer without any width check and later
emits it untruncated.  This refutes the claim that every emitted line
measures at most `maxWidth`. -/
theorem C1_counterexample :
    (['c','d','e','f','g'], (1:ℚ)) ∈ wrap lenM 3 (3/4) (1/4) (39/8) c1desc ∧
    ¬ lenM ['c','d','e','f','g'] ≤ 3 := by
  have hf : fields c1desc = [['a','b'], ['c','d','e','f','g'], ['x']] := by decide
  constructor
  · rw [wrap, hf]
    norm_num [wrapFrom, mkTest, lenM, List.cons_ne_nil, reduceCtorEq, List.length_cons,
      List.length_nil, List.length_append]
  · norm_num [lenM, List.length_cons, List.length_nil]

/-- Claim C1 (amended): every line emitted by the word-wrap routine measures
at most `maxWidth` **provided every word of the description measures at most
`maxWidth`**; in general an oversized word that follows a non-empty buffer is
emitted untruncated (the truncation fallback runs only when the buffer is
empty). -/
theorem C1_width_bound (m : Str → ℚ) (maxWidth startY lineHeight maxY : ℚ)
    (description : Str) (hw : ∀ w ∈ fields description, m w ≤ maxWidth) :
    ∀ p ∈ wrap m maxWidth startY lineHeight maxY description, m p.1 ≤ maxWidth :=
  wrapFrom_width_le m maxWidth lineHeight maxY (fields description) [] startY hw (Or.inl rfl)

/-- Witness for `C1_width_bound` at a concrete input. -/
theorem C1_width_bound_witness : lenM ['a','b'] ≤ 3 :=
  C1_width_bound lenM 3 0 1 5 ['a','b'] (by decide) (['a','b'], 0) (by decide)

/-- A concrete description for the claim C2 counterexample: `"ab cd"`. -/
def c2desc : Str := ['a', 'b', spaceChar, 'c', 'd']

/-- Claim C2 (counterexample): with the character-count measure,
`maxWidth = 3`, `startY = 0`, `lineHeight = 1`, `maxY = 1/2`, the description
`"ab cd"` emits only `("ab", 0)`.  The trailing buffer `"cd"` was started at
`y = 1`, past the `maxY = 1/2` boundary, and does **not** render: the
post-loop emission is guarded by `yPos ≤ maxY`, so a line started past the
boundary never renders, contrary to the claim's consequence.  (Moreover the
cutoff check sits at loop-bottom, after consuming each word, not at
loop-top.) -/
theorem C2_counterexample :
    wrap lenM 3 0 1 (1/2) c2desc = [(['a','b'], 0)] := by
  have hf : fields c2desc = [['a','b'], ['c','d']] := by decide
  rw [wrap, hf]
  norm_num [wrapFrom, mkTest, lenM, List.cons_ne_nil, reduceCtorEq, List.length_cons,
    List.length_nil, List.length_append]

/-- Claim C2 (amended): the source places the `y > maxY` check at
loop-bottom, after consuming each word; this is output-equivalent to the
spec's loop-top check because the first iteration, whose buffer is empty,
cannot emit.  When the check fires, the remaining words and the partially
built buffer are all discarded.  A line can never be started past the `maxY`
boundary and still render: every rendered line, the trailing buffer
included, sits at `y ≤ maxY`. -/
theorem C2_cutoff (m : Str → ℚ) (maxWidth startY lineHeight maxY : ℚ)
    (description : Str) :
    wrap m maxWidth startY lineHeight maxY description =
      specWrapTop m maxWidth startY lineHeight maxY description ∧
    ∀ p ∈ wrap m maxWidth startY lineHeight maxY description, p.2 ≤ maxY := by
  refine ⟨wrap_eq_specWrapTop m maxWidth startY lineHeight maxY description, ?_⟩
  rcases le_or_lt startY maxY with hy | hy
  · exact wrapFrom_y_le m maxWidth lineHeight maxY (fields description) [] startY hy
  · intro p hp
    rw [wrap, wrapFrom_nil_of_past m maxWidth lineHeight maxY (fields description) startY hy]
      at hp
    exact absurd hp (List.not_mem_nil p)

/-- Witness for `C2_cutoff` at a concrete input. -/
theorem C2_cutoff_witness :
    wrap lenM 9 0 1 5 ['a','b'] = specWrapTop lenM 9 0 1 5 ['a','b'] ∧ (0:ℚ) ≤ 5 :=
  ⟨(C2_cutoff lenM 9 0 1 5 ['a','b']).1,
   (C2_cutoff lenM 9 0 1 5 ['a','b']).2 (['a','b'], 0) (by decide)⟩

/-- Claim C3 (counterexample): the stated bound
`count ≤ ⌈(maxY - startY)/lineHeight⌉ + 1` fails when `startY` lies more than
one line height past `maxY`, because the right-hand side is then negative
while the count is 0: with `startY = 2`, `lineHeight = 1`, `maxY = 0` the
bound is `⌈-2⌉ + 1 = -1 < 0`. -/
theorem C3_counterexample :
    ¬ (((wrap lenM 3 2 1 0 ['a']).length : ℤ) ≤ ⌈(((0:ℚ) - 2) / 1)⌉ + 1) := by
  rw [show ((0:ℚ) - 2) / 1 = ((-2 : ℤ) : ℚ) by norm_num, Int.ceil_intCast]
  have hf : fields ['a'] = [['a']] := by decide
  rw [wrap, hf]
  norm_num [wrapFrom, mkTest, lenM, List.cons_ne_nil, reduceCtorEq, List.length_cons,
    List.length_nil]

/-- Claim C3 (amended): the wrap routine is total (it is defined by
structural recursion on the word list, so it terminates on every input), and
whenever `startY ≤ maxY` it emits at most
`⌈(maxY - startY)/lineHeight⌉ + 1` lines; when `startY > maxY` it emits no
lines at all (the stated bound can be negative there). -/
theorem C3_line_count (m : Str → ℚ) (maxWidth startY lineHeight maxY : ℚ)
    (description : Str) (hlh : 0 < lineHeight) :
    (startY ≤ maxY →
      ((wrap m maxWidth startY lineHeight maxY description).length : ℤ) ≤
        ⌈(maxY - startY) / lineHeight⌉ + 1) ∧
    (maxY < startY → wrap m maxWidth startY lineHeight maxY description = []) :=
  ⟨fun hy => wrapFrom_length_le m maxWidth lineHeight maxY hlh (fields description) [] startY hy,
   fun hy => wrapFrom_nil_of_past m maxWidth lineHeight maxY (fields description) startY hy⟩

/-- Witness for `C3_line_count` at a concrete input. -/
theorem C3_line_count_witness :
    ((wrap lenM 3 0 1 5 ['a']).length : ℤ) ≤ ⌈((5:ℚ) - 0) / 1⌉ + 1 :=
  (C3_line_count lenM 3 0 1 5 ['a'] (by norm_num)).1 (by norm_num)

/-- A trivial measure, used to instantiate witnesses. -/
def zeroM : Font → Str → ℚ := fun _ _ => 0

/-- A constant measure that makes every non-empty string too wide. -/
def fiveM : Str → ℚ := fun _ => 5

/-- Concrete data whose title is two spaces (whitespace-only). -/
def blankTitleData : LabelData :=
  ⟨[spaceChar, spaceChar], [], [], [], [], [], [], [], [], []⟩

/-- Concrete data with a non-blank URL, for the C6 witness. -/
def qrData : LabelData :=
  ⟨String.toList "t", [], [], [], [], [], [], String.toList "u", [], []⟩

/-- Claim C4 (confirmed): for every `LabelData` whose title is empty or
consists only of whitespace, `generatePDF` returns the validation error
`"title is required"`; the error return happens before `layoutPDF` and
before the output call, so no draw event is produced and no file name is
ever handed to the PDF sink. -/
theorem C4_blank_title (m : Font → Str → ℚ) (qrOk : Bool) (data : LabelData)
    (h : ∀ c ∈ data.Title, goIsSpace c = true) :
    generatePDF m qrOk data = Except.error (String.toList "title is required") := by
  unfold generatePDF
  rw [if_pos (trimSpace_eq_nil data.Title h)]

/-- Witness for `C4_blank_title` at a concrete input. -/
theorem C4_blank_title_witness :
    generatePDF zeroM true blankTitleData = Except.error (String.toList "title is required") :=
  C4_blank_title zeroM true blankTitleData (by decide)

/-- Claim C5 (confirmed): when the buffer is empty and the word alone
exceeds `maxWidth`, the wrap routine replaces the word by
`truncateWord`'s result, which is the prefix of the word obtained by
repeatedly dropping the last character until the width is at most `maxWidth`
(or the word is exhausted: every strictly longer prefix measures too wide),
and processing of the remaining words continues from the truncated word
only — the removed suffix is gone from the state, so it can never be
recovered or carried onto any subsequent line. -/
theorem C5_truncation_fallback (m : Str → ℚ) (maxWidth lineHeight maxY : ℚ)
    (word : Str) (h : maxWidth < m word) :
    (truncateWord m word maxWidth <+: word) ∧
    (truncateWord m word maxWidth = [] ∨ m (truncateWord m word maxWidth) ≤ maxWidth) ∧
    (∀ n : Nat, (truncateWord m word maxWidth).length < n → n ≤ word.length →
      maxWidth < m (word.take n)) ∧
    (∀ (rest : List Str) (yPos : ℚ), yPos ≤ maxY →
      wrapFrom m maxWidth lineHeight maxY (word :: rest) [] yPos =
        wrapFrom m maxWidth lineHeight maxY rest (truncateWord m word maxWidth) yPos) := by
  refine ⟨truncateWord_pre m word maxWidth, truncateWord_ok m word maxWidth,
    truncateWord_max m word maxWidth, ?_⟩
  intro rest yPos hy
  simp only [wrapFrom, mkTest_nil]
  rw [if_pos h, if_neg (show ¬ (([] : Str) ≠ []) by simp), if_neg (not_lt.mpr hy)]

/-- Witness for `C5_truncation_fallback` at a concrete input. -/
theorem C5_truncation_fallback_witness :
    wrapFrom lenM 2 1 5 [['a','b','c','d']] [] 0 =
      wrapFrom lenM 2 1 5 [] (truncateWord lenM ['a','b','c','d'] 2) 0 :=
  (C5_truncation_fallback lenM 2 1 5 ['a','b','c','d'] (by decide)).2.2.2 [] 0 (by decide)

/-- Witness for `C6_qr_lifecycle` at a concrete input. -/
theorem C6_qr_lifecycle_witness :
    (layoutPDF zeroM true qrData).filter Event.isQRFileOp =
      [Event.qrWrite (String.toList "u") qrPath,
       Event.image qrPath (pageHeightInches - marginInches - 1/2)
         (pageWidthInches - marginInches - 1/2) (1/2) (1/2),
       Event.removeFile qrPath] :=
  C6_qr_lifecycle zeroM qrData (by decide)

/-- Claim C7 (confirmed): a word already measuring at most `maxWidth` is
returned unchanged by `truncateWord` (the loop guard fails immediately);
consequently truncation is idempotent — in fact idempotence holds
unconditionally, because the result of a truncation is either empty or
narrow enough. -/
theorem C7_truncation_idempotent (m : Str → ℚ) (word : Str) (maxWidth : ℚ) :
    (m word ≤ maxWidth → truncateWord m word maxWidth = word) ∧
    truncateWord m (truncateWord m word maxWidth) maxWidth =
      truncateWord m word maxWidth :=
  ⟨truncateWord_noop m word maxWidth, truncateWord_idem m word maxWidth⟩

/-- Witness for `C7_truncation_idempotent` at a concrete input. -/
theorem C7_truncation_idempotent_witness :
    truncateWord lenM ['a','b'] 5 = ['a','b'] :=
  (C7_truncation_idempotent lenM ['a','b'] 5).1 (by decide)

/-- Claim C8 (counterexample): the title `"aB"` is rendered as `"Ab"` — the
source also lowercases every character after the first
(`strings.ToUpper(word[:1]) + strings.ToLower(word[1:])`), whereas the claim
(first letter uppercased, remainder untouched) would give `"AB"`. -/
theorem C8_counterexample :
    titleTransform (String.toList "aB") = String.toList "Ab" ∧
    specTitleUpperFirst (String.toList "aB") = String.toList "AB" ∧
    titleTransform (String.toList "aB") ≠ specTitleUpperFirst (String.toList "aB") := by
  refine ⟨by decide, by decide, by decide⟩

/-- Claim C8 (amended): the rendered title is the input title with each
whitespace-separated word title-cased — first letter uppercased **and the
remainder lowercased** — re-joined with single spaces, drawn as a single
center-aligned cell spanning the content width at the title position. -/
theorem C8_title (title : Str) (contentWidth : ℚ) :
    drawTitle title contentWidth =
      Event.cell ⟨marginInches, marginInches + 1/10, contentWidth, 3/10,
        specTitleTitleCase title, Align.C⟩ := by
  unfold drawTitle
  rw [titleTransform_eq]

/-- Claim C9 (confirmed): the output filename is exactly
`label_<SKU-with-spaces-replaced-by-underscores>.pdf`; when the SKU contains
no path separator the filename contains none either, so the relative path
stays in the current working directory. -/
theorem C9_filename (sku : Str) :
    generateFilename sku = specFilename sku ∧
    (slashChar ∉ sku → slashChar ∉ generateFilename sku) := by
  constructor
  · unfold generateFilename specFilename
    rw [replaceAllChar_eq_specReplaceSpaces]
  · intro h hmem
    unfold generateFilename at hmem
    rcases List.mem_append.mp hmem with h1 | h2
    · rcases List.mem_append.mp h1 with h1a | h1b
      · exact absurd h1a (by decide)
      · exact slash_not_mem_replaceAllChar sku h h1b
    · exact absurd h2 (by decide)

/-- Witness for `C9_filename` at a concrete input. -/
theorem C9_filename_witness :
    generateFilename (String.toList "AB C") = specFilename (String.toList "AB C") ∧
    slashChar ∉ generateFilename (String.toList "AB C") :=
  ⟨(C9_filename (String.toList "AB C")).1, (C9_filename (String.toList "AB C")).2 (by decide)⟩

/-- Claim C10 (confirmed): `truncateWord` is total (modelled with fuel
`word.length`, which provably reaches the loop's fixed point) and returns a
prefix of its input; when every non-empty prefix measures wider than
`maxWidth` it returns the empty string; and the wrap loop never emits an
empty line (every emission site is guarded by a non-emptiness check), so a
pathological word produces no line rather than an infinite loop or an empty
line. -/
theorem C10_truncation_safety (m : Str → ℚ) (maxWidth : ℚ) (word : Str) :
    (truncateWord m word maxWidth <+: word) ∧
    ((∀ p : Str, p <+: word → p ≠ [] → maxWidth < m p) →
      truncateWord m word maxWidth = []) ∧
    (∀ (lineHeight maxY : ℚ) (words : List Str) (line : Str) (yPos : ℚ),
      ∀ q ∈ wrapFrom m maxWidth lineHeight maxY words line yPos, q.1 ≠ []) := by
  refine ⟨truncateWord_pre m word maxWidth, ?_, ?_⟩
  · intro hall
    rcases truncateWord_ok m word maxWidth with h | h
    · exact h
    · by_contra hne
      exact absurd h (not_le.mpr (hall _ (truncateWord_pre m word maxWidth) hne))
  · intro lineHeight maxY words line yPos q hq
    exact wrapFrom_ne_nil m maxWidth lineHeight maxY words line yPos q hq

/-- Witness for `C10_truncation_safety` at concrete inputs: under a measure
that makes every non-empty string too wide, truncation returns the empty
string; and a concretely emitted line is non-empty. -/
theorem C10_truncation_safety_witness :
    truncateWord fiveM ['a','b'] 1 = [] ∧ (['a','b'] : Str) ≠ [] :=
  ⟨(C10_truncation_safety fiveM 1 ['a','b']).2.1 (fun p _ _ => by norm_num [fiveM]),
   (C10_truncation_safety lenM 3 ['a','b']).2.2 1 5 [['a','b']] [] 0 (['a','b'], 0) (by decide)⟩
